import Mathlib

/-!
Shallow embedding of the multi-strategy team / workflow orchestration core of
the ERP-AI-Agents repository, together with proofs settling the frozen claims.

Team side: `src/packages/agent_framework/agent_framework/team.py`
Workflow side: `src/services/orchestration_engine/orchestration_engine/`
(`workflow_manager.py`, `agent_manager.py`, `tasks.py`).
-/

namespace AgentFramework

/-- JSON-like values carried in task payloads, agent outputs and shared
context (`Dict[str, Any]` in the Python source, restricted to the value
shapes the orchestration code actually constructs and inspects). -/
inductive Val where
  | num : Int → Val
  | str : String → Val
  | list : List Val → Val
  | obj : List (String × Val) → Val

/-- A Python `dict` with string keys, represented as an association list in
insertion order (Python dicts preserve insertion order). -/
abbrev Obj := List (String × Val)

/-- Python `d[k] = v`: update the value in place if the key is present,
otherwise append the new binding at the end. -/
def pyDictSet {α : Type} : List (String × α) → String → α → List (String × α)
  | [], k, v => [(k, v)]
  | (k', v') :: rest, k, v =>
      if k' = k then (k, v) :: rest else (k', v') :: pyDictSet rest k v

/-- Python `d.get(k)`: the value bound to `k`, if any. -/
def pyDictGet {α : Type} : List (String × α) → String → Option α
  | [], _ => none
  | (k', v) :: rest, k => if k' = k then some v else pyDictGet rest k

/-- `AgentResult` from `enhanced_agent.py` (fields relevant to team
execution; timing fields omitted as wall-clock time is not modelled). -/
structure AgentResult where
  status : String
  outputs : Obj
  metadata : Obj := []
  error : Option String := none

/-- Outcome of one `agent.execute(task, context)` call: either the coroutine
raises an exception (carrying its message) or returns an `AgentResult`. -/
inductive Outcome where
  | raise : String → Outcome
  | ret : AgentResult → Outcome

/-- The behaviour of the loaded agents: agent id, the task input passed to
`agent.execute`, and the shared context data at call time determine the
outcome.  Totality models the hypothesis that every member loaded. -/
abbrev Env := String → Obj → Obj → Outcome

/-- `TeamStrategy` enum from `team.py`. -/
inductive TeamStrategy where
  | sequential
  | parallel
  | consensus
  | leader_follower
  | pipeline
deriving DecidableEq

/-- `TeamMember` dataclass from `team.py`. -/
structure TeamMember where
  agent_id : String
  role : String := "contributor"
  priority : Int := 1
  required : Bool := true
deriving DecidableEq

/-- `TeamConfiguration` dataclass from `team.py` (retry/timeout fields
omitted: no strategy handler reads them). -/
structure TeamConfiguration where
  team_id : String
  name : String := ""
  description : String := ""
  members : List TeamMember
  strategy : TeamStrategy := .sequential
  shared_context : Obj := []

/-- `TeamResult` dataclass from `team.py` (wall-clock `execution_time_ms`
and `timestamp` omitted). -/
structure TeamResult where
  team_id : String
  status : String
  outputs : Obj
  agent_results : List (String × AgentResult) := []
  metadata : Obj := []
  error : Option String := none
  agents_executed : Nat := 0

/-- Python `str(x)` on an `Optional[str]`, as interpolated into the error
message `f"... failed: {result.error}"`. -/
def optStr : Option String → String
  | none => "None"
  | some s => s

/-- One insertion step of Python's stable descending sort
`sorted(members, key=lambda m: m.priority, reverse=True)`: the new element
(which precedes the others in the original list) is placed after every
element of strictly greater priority and before all remaining ones. -/
def insertDesc (m : TeamMember) : List TeamMember → List TeamMember
  | [] => [m]
  | x :: xs => if m.priority < x.priority then x :: insertDesc m xs else m :: x :: xs

/-- `sorted(members, key=lambda m: m.priority, reverse=True)`: stable sort
by priority, highest first. -/
def sortByPriorityDesc (ms : List TeamMember) : List TeamMember :=
  ms.foldr insertDesc []

/-- Loop body of `Team._execute_sequential`: members are processed in sorted
order, threading the shared context `sd`, the `agent_results` dict `ars` and
the `outputs` dict `outs`. -/
def seqGo (env : Env) (teamId : String) (task : Obj) :
    List TeamMember → Obj → List (String × AgentResult) → Obj → TeamResult
  | [], sd, ars, outs =>
      { team_id := teamId, status := "success", outputs := outs,
        agent_results := ars, metadata := [("shared_context", Val.obj sd)] }
  | m :: rest, sd, ars, outs =>
      match env m.agent_id task sd with
      | .raise e =>
          if m.required then
            { team_id := teamId, status := "error", outputs := outs,
              agent_results := ars,
              error := some ("Required agent " ++ m.agent_id ++ " error: " ++ e) }
          else
            seqGo env teamId task rest sd ars outs
      | .ret r =>
          let ars' := pyDictSet ars m.agent_id r
          if r.status = "success" then
            seqGo env teamId task rest
              (pyDictSet sd (m.agent_id ++ "_output") (Val.obj r.outputs))
              ars' (pyDictSet outs m.agent_id (Val.obj r.outputs))
          else if m.required then
            { team_id := teamId, status := "error", outputs := outs,
              agent_results := ars',
              error := some ("Required agent " ++ m.agent_id ++ " failed: " ++
                optStr r.error) }
          else
            seqGo env teamId task rest sd ars' outs

/-- `Team._execute_sequential`. -/
def execSequential (env : Env) (teamId : String) (task sd : Obj)
    (members : List TeamMember) : TeamResult :=
  seqGo env teamId task (sortByPriorityDesc members) sd [] []

/-- Loop body of `Team._execute_parallel` (the source simulates parallel
execution with a sequential loop over the members in configuration order). -/
def parGo (env : Env) (teamId : String) (task sd : Obj) :
    List TeamMember → List (String × AgentResult) → Obj → TeamResult
  | [], ars, outs =>
      { team_id := teamId, status := "success", outputs := outs,
        agent_results := ars }
  | m :: rest, ars, outs =>
      match env m.agent_id task sd with
      | .raise e =>
          if m.required then
            { team_id := teamId, status := "error", outputs := outs,
              agent_results := ars, error := some e }
          else
            parGo env teamId task sd rest ars outs
      | .ret r =>
          let ars' := pyDictSet ars m.agent_id r
          let outs' := if r.status = "success"
            then pyDictSet outs m.agent_id (Val.obj r.outputs) else outs
          parGo env teamId task sd rest ars' outs'

/-- `Team._execute_parallel`. -/
def execParallel (env : Env) (teamId : String) (task sd : Obj)
    (members : List TeamMember) : TeamResult :=
  parGo env teamId task sd members [] []

/-- Inner step of `Team._aggregate_outputs`: append `v` to `aggregated[k]`,
creating the entry (at the end, Python-dict order) if absent. -/
def aggAddVal (agg : List (String × List Val)) (k : String) (v : Val) :
    List (String × List Val) :=
  match pyDictGet agg k with
  | none => agg ++ [(k, [v])]
  | some vs => pyDictSet agg k (vs ++ [v])

/-- `Team._aggregate_outputs`: group the output values of all successful
agent results by key name, in dict iteration order. -/
def aggregateOutputs (ars : List (String × AgentResult)) :
    List (String × List Val) :=
  ars.foldl
    (fun agg kr =>
      if kr.2.status = "success"
      then kr.2.outputs.foldl (fun a kv => aggAddVal a kv.1 kv.2) agg
      else agg)
    []

/-- `Team._execute_consensus`: run as parallel, then store the grouped
aggregation under the `"consensus"` key of the outputs (unconditionally,
even when the parallel phase reported an error). -/
def execConsensus (env : Env) (teamId : String) (task sd : Obj)
    (members : List TeamMember) : TeamResult :=
  let pr := execParallel env teamId task sd members
  let consensus := Val.obj ((aggregateOutputs pr.agent_results).map
    (fun kv => (kv.1, Val.list kv.2)))
  { pr with outputs := pyDictSet pr.outputs "consensus" consensus }

/-- Python `max(members, key=lambda m: m.priority)`: the first member of
maximal priority, or `none` (a `ValueError`) on the empty list. -/
def pyMaxByPriority : List TeamMember → Option TeamMember
  | [] => none
  | m :: rest =>
      some (rest.foldl (fun best x => if best.priority < x.priority then x else best) m)

/-- Follower loop of `Team._execute_leader_follower`: followers run
unconditionally, results recorded; an exception is uncaught here and
propagates (`Except.error`). -/
def lfFollowers (env : Env) (task sd : Obj) :
    List TeamMember → List (String × AgentResult) →
    Except String (List (String × AgentResult))
  | [], ars => .ok ars
  | f :: rest, ars =>
      match env f.agent_id task sd with
      | .raise e => .error e
      | .ret r => lfFollowers env task sd rest (pyDictSet ars f.agent_id r)

/-- `Team._execute_leader_follower`.  `max` on an empty member list raises a
`ValueError`; a leader or follower exception is uncaught in this handler. -/
def execLeaderFollower (env : Env) (teamId : String) (task sd : Obj)
    (members : List TeamMember) : Except String TeamResult :=
  match pyMaxByPriority members with
  | none => .error "max() arg is an empty sequence"
  | some leader =>
    let followers := members.filter (fun m => m.agent_id != leader.agent_id)
    match env leader.agent_id task sd with
    | .raise e => .error e
    | .ret lr =>
      let ars := pyDictSet [] leader.agent_id lr
      if lr.status = "success" then
        let sd' := pyDictSet sd "leader_output" (Val.obj lr.outputs)
        match lfFollowers env task sd' followers ars with
        | .error e => .error e
        | .ok ars' =>
            .ok { team_id := teamId, status := "success",
                  outputs := [("leader", Val.obj lr.outputs)],
                  agent_results := ars' }
      else
        .ok { team_id := teamId, status := "error", outputs := [],
              agent_results := ars,
              error := some ("Leader " ++ leader.agent_id ++ " failed") }

/-- Loop body of `Team._execute_pipeline`: each stage feeds its outputs as
the next stage's input; agent exceptions are uncaught in this handler. -/
def pipeGo (env : Env) (teamId : String) (sd : Obj) :
    List TeamMember → Obj → List (String × AgentResult) →
    Except String TeamResult
  | [], cur, ars =>
      .ok { team_id := teamId, status := "success", outputs := cur,
            agent_results := ars }
  | m :: rest, cur, ars =>
      match env m.agent_id cur sd with
      | .raise e => .error e
      | .ret r =>
        let ars' := pyDictSet ars m.agent_id r
        if r.status = "success" then
          pipeGo env teamId sd rest r.outputs ars'
        else if m.required then
          .ok { team_id := teamId, status := "error", outputs := [],
                agent_results := ars',
                error := some ("Pipeline broken at " ++ m.agent_id) }
        else
          pipeGo env teamId sd rest cur ars'

/-- `Team._execute_pipeline`. -/
def execPipeline (env : Env) (teamId : String) (task sd : Obj)
    (members : List TeamMember) : Except String TeamResult :=
  pipeGo env teamId sd (sortByPriorityDesc members) task []

/-- The strategy dispatch inside the `try:` of `Team.execute`.  Handlers
whose internal loops can let an agent exception escape return it as
`Except.error`; the strategy enum is closed, so every variant has a
handler and the `else: raise ValueError` arm of the source is dead. -/
def teamDispatch (env : Env) (cfg : TeamConfiguration) (task : Obj) :
    Except String TeamResult :=
  let sd := cfg.shared_context
  match cfg.strategy with
  | .sequential => .ok (execSequential env cfg.team_id task sd cfg.members)
  | .parallel => .ok (execParallel env cfg.team_id task sd cfg.members)
  | .consensus => .ok (execConsensus env cfg.team_id task sd cfg.members)
  | .leader_follower => execLeaderFollower env cfg.team_id task sd cfg.members
  | .pipeline => execPipeline env cfg.team_id task sd cfg.members

/-- `Team.execute`: run the strategy dispatch; any exception is caught and
converted to an error `TeamResult`; finally `agents_executed` is set to the
number of recorded agent results. -/
def Team.execute (env : Env) (cfg : TeamConfiguration) (task : Obj) : TeamResult :=
  let r : TeamResult :=
    match teamDispatch env cfg task with
    | .ok r => r
    | .error e =>
        { team_id := cfg.team_id, status := "error", outputs := [],
          error := some e }
  { r with agents_executed := r.agent_results.length }

end AgentFramework

namespace Orchestration

open AgentFramework

/-- Python truthiness of an optional value, as tested by `if not agent_url:`
and by `agent_info.get("url") or ...`. -/
def pyTruthy : Option Val → Bool
  | none => false
  | some (.num n) => n != 0
  | some (.str s) => s != ""
  | some (.list l) => !l.isEmpty
  | some (.obj l) => !l.isEmpty

/-- `AgentManager` state: the `agents` dict mapping agent id to the metadata
dict (`agent_manager.py`). -/
structure AgentManager where
  agents : List (String × Obj)

/-- `AgentManager.register_agent`: last-write-wins upsert. -/
def register_agent (mgr : AgentManager) (agent_id : String) (meta : Obj) :
    AgentManager :=
  { agents := pyDictSet mgr.agents agent_id meta }

/-- `os.getenv("GENERIC_AGENT_URL", "http://generic-agent:5000")`: the
environment value when the variable is set, else the default. -/
def getenvGenericAgentUrl (genericEnv : Option String) : String :=
  match genericEnv with
  | some v => v
  | none => "http://generic-agent:5000"

/-- `AgentManager.get_agent_url`: `none` when the id is unregistered;
otherwise the metadata's `"url"` value when truthy, else the generic
fallback endpoint. -/
def get_agent_url (mgr : AgentManager) (genericEnv : Option String)
    (agent_id : String) : Option Val :=
  match pyDictGet mgr.agents agent_id with
  | none => none
  | some info =>
      let u := pyDictGet info "url"
      if pyTruthy u then u
      else some (.str (getenvGenericAgentUrl genericEnv))

/-- One task of a workflow: `{"agent_id": ..., "task_details": ...}`. -/
structure WTask where
  agent_id : String
  task_details : Obj

/-- One persisted `Workflow` row (`database.py` model as used by
`workflow_manager.py`); the JSON-serialised `tasks`/`results` columns are
modelled by their parsed contents. -/
structure WorkflowRow where
  id : String
  name : String
  tasks : List WTask
  status : String
  results : List Obj
  user_id : Int

/-- Row predicate of `WorkflowManager._get_workflow_from_db`'s query: the id
must match, and the owner filter is added only when the `user_id` argument
is Python-truthy (so it is skipped both for `None` and for `0`). -/
def rowMatches (wid : String) (uid : Option Int) (w : WorkflowRow) : Bool :=
  w.id == wid &&
    match uid with
    | none => true
    | some u => u == 0 || w.user_id == u

/-- `WorkflowManager._get_workflow_from_db`: first row matching the query. -/
def getWorkflowFromDb (db : List WorkflowRow) (wid : String)
    (uid : Option Int) : Option WorkflowRow :=
  (db.filter (rowMatches wid uid)).head?

/-- The dict returned by `WorkflowManager.get_workflow_status`. -/
structure WorkflowSnapshot where
  id : String
  name : String
  status : String
  results : List Obj

/-- `WorkflowManager.get_workflow_status`: owner-scoped lookup, `none`
(HTTP 404 upstream) when the query finds no row. -/
def get_workflow_status (db : List WorkflowRow) (wid : String) (uid : Int) :
    Option WorkflowSnapshot :=
  match getWorkflowFromDb db wid (some uid) with
  | none => none
  | some w =>
      some { id := w.id, name := w.name, status := w.status,
             results := w.results }

/-- `WorkflowManager.create_and_dispatch_workflow`'s persistence effect:
insert a new row in status `"pending"` with empty results. -/
def create_workflow (db : List WorkflowRow) (wid name : String)
    (tasks : List WTask) (uid : Int) : List WorkflowRow :=
  db ++ [{ id := wid, name := name, tasks := tasks, status := "pending",
           results := [], user_id := uid }]

/-- Outcome of `client.post(f"{agent_url}/execute", ...)` followed by
`raise_for_status()` and `.json()`: a parsed 2xx body; an uncaught
exception (`HTTPStatusError` from a non-2xx response, or a JSON decode
error — neither is an `httpx.RequestError`, so the `except` clause does not
catch them); or a caught `httpx.RequestError`. -/
inductive HttpOutcome where
  | success (body : Obj)
  | uncaught (msg : String)
  | requestError (msg : String)

/-- Environment of one workflow execution: the worker-side agent registry,
the `GENERIC_AGENT_URL` environment variable, and the remote behaviour of
each agent endpoint (url, task_details ↦ HTTP outcome). -/
structure OrchEnv where
  mgr : AgentManager
  genericEnv : Option String
  http : Val → Obj → HttpOutcome

/-- One write issued to the `WorkflowStore` during execution. -/
inductive StoreWrite where
  | setStatus (wid : String) (status : String)
  | setResults (wid : String) (results : List Obj)

/-- How the task loop of `execute_workflow` ends: normally, with the
accumulated results and the `final_status` variable, or by an uncaught
exception that aborts the rest of the method. -/
inductive LoopEnd where
  | finished (results : List Obj) (finalStatus : String)
  | raised

/-- Task loop of `WorkflowManager.execute_workflow`: resolve the agent url
(falsy url aborts with `final_status="failed"`), POST the task, append the
result body to the in-memory `results` list, break on `RequestError`,
propagate uncaught exceptions. -/
def execLoop (env : OrchEnv) : List WTask → List Obj → LoopEnd
  | [], acc => .finished acc "completed"
  | t :: rest, acc =>
      let url := get_agent_url env.mgr env.genericEnv t.agent_id
      if pyTruthy url then
        match env.http (url.getD (.str "")) t.task_details with
        | .success body => execLoop env rest (acc ++ [body])
        | .uncaught _ => .raised
        | .requestError _ => .finished acc "failed"
      else
        .finished acc "failed"

/-- `WorkflowManager.execute_workflow`, as the sequence of store writes it
issues: nothing when the id is unknown; otherwise `"running"` first, and —
only if no uncaught exception ends the method early — one single results
write after the whole loop, followed by the terminal status write. -/
def execute_workflow (env : OrchEnv) (db : List WorkflowRow) (wid : String) :
    List StoreWrite :=
  match getWorkflowFromDb db wid none with
  | none => []
  | some w =>
      match execLoop env w.tasks [] with
      | .raised => [.setStatus wid "running"]
      | .finished results finalStatus =>
          [.setStatus wid "running", .setResults wid results,
           .setStatus wid finalStatus]

/-- Apply one store write to the database (`update ... where id == wid`). -/
def applyWrite (db : List WorkflowRow) : StoreWrite → List WorkflowRow
  | .setStatus wid s =>
      db.map (fun w => if w.id == wid then { w with status := s } else w)
  | .setResults wid rs =>
      db.map (fun w => if w.id == wid then { w with results := rs } else w)

/-- Apply a sequence of store writes in order. -/
def applyWrites (db : List WorkflowRow) (ws : List StoreWrite) :
    List WorkflowRow :=
  ws.foldl applyWrite db

/-- The status values written for workflow `wid` by a trace, in order. -/
def statusWrites (wid : String) (tr : List StoreWrite) : List String :=
  tr.filterMap (fun w =>
    match w with
    | .setStatus wid' s => if wid' == wid then some s else none
    | .setResults _ _ => none)

/-- The results lists written for workflow `wid` by a trace, in order. -/
def resultsWrites (wid : String) (tr : List StoreWrite) : List (List Obj) :=
  tr.filterMap (fun w =>
    match w with
    | .setStatus _ _ => none
    | .setResults wid' rs => if wid' == wid then some rs else none)

/-- Rank of a workflow status in the lifecycle order
pending → running → {completed, failed}. -/
def statusRank : String → Nat
  | "pending" => 0
  | "running" => 1
  | "completed" => 2
  | "failed" => 2
  | _ => 3

end Orchestration

namespace AgentFramework

/-- The outcome of one invocation is a failure: the call raised, or it
returned a result whose status is not `"success"`. -/
def FailsOn : Outcome → Prop
  | .raise _ => True
  | .ret r => r.status ≠ "success"

/-- Every invocation of agent `aid` raises an exception. -/
def AlwaysRaises (env : Env) (aid : String) : Prop :=
  ∀ inp sd, ∃ e, env aid inp sd = .raise e

/-- Every invocation of agent `aid` returns a non-success result (and in
particular never raises). -/
def AlwaysErrResult (env : Env) (aid : String) : Prop :=
  ∀ inp sd, ∃ r, env aid inp sd = .ret r ∧ r.status ≠ "success"

/-- Every invocation of agent `aid` fails, whether by raising or by
returning a non-success result. -/
def AlwaysFails (env : Env) (aid : String) : Prop :=
  ∀ inp sd, FailsOn (env aid inp sd)

/-- Every invocation of agent `aid` returns a result (never raises). -/
def NeverRaises (env : Env) (aid : String) : Prop :=
  ∀ inp sd, ∃ r, env aid inp sd = Outcome.ret r

end AgentFramework

namespace Examples

open AgentFramework Orchestration

/-- An agent environment in which every invocation raises. -/
def envAllRaise : Env := fun _ _ _ => .raise "boom"

/-- A non-success agent result. -/
def errResult : AgentResult :=
  { status := "error", outputs := [], error := some "bad" }

/-- An agent environment in which every invocation returns an error result. -/
def envAllErr : Env := fun _ _ _ => .ret errResult

/-- A single required member (dataclass defaults: priority 1, required). -/
def memberR : TeamMember := { agent_id := "R" }

/-- One required member under the PARALLEL strategy. -/
def cfgParRequired : TeamConfiguration :=
  { team_id := "t1", members := [memberR], strategy := .parallel }

/-- One required member under the SEQUENTIAL strategy. -/
def cfgSeqRequired : TeamConfiguration :=
  { team_id := "t1s", members := [memberR], strategy := .sequential }

/-- Member A of the §8.7 pipeline scenario: priority 2, required. -/
def memberA : TeamMember := { agent_id := "A", priority := 2 }

/-- Member B of the §8.7 pipeline scenario: priority 1, required. -/
def memberB : TeamMember := { agent_id := "B", priority := 1 }

/-- Agent behaviour of the §8.7 scenario: A succeeds with outputs `oA`,
every other agent returns an error result with message `eB`. -/
def envPipeAB (oA : Obj) (eB : String) : Env := fun aid _ _ =>
  if aid = "A" then .ret { status := "success", outputs := oA }
  else .ret { status := "error", outputs := [], error := some eB }

/-- The §8.7 two-member PIPELINE configuration. -/
def cfgPipeAB : TeamConfiguration :=
  { team_id := "t2", members := [memberA, memberB], strategy := .pipeline }

/-- The same two members under SEQUENTIAL. -/
def cfgSeqAB : TeamConfiguration :=
  { team_id := "t4", members := [memberA, memberB], strategy := .sequential }

/-- An agent environment in which every invocation succeeds. -/
def envOk : Env := fun _ _ _ => .ret { status := "success", outputs := [] }

/-- An empty member list under SEQUENTIAL. -/
def cfgEmptySeq : TeamConfiguration :=
  { team_id := "t6", members := [], strategy := .sequential }

/-- An empty member list under LEADER_FOLLOWER. -/
def cfgEmptyLF : TeamConfiguration :=
  { team_id := "t6l", members := [], strategy := .leader_follower }

/-- A single optional (required=false) member. -/
def memberX : TeamMember := { agent_id := "X", required := false }

/-- One optional member under SEQUENTIAL. -/
def cfgOptSeq : TeamConfiguration :=
  { team_id := "t7", members := [memberX], strategy := .sequential }

/-- A persisted workflow owned by user 5. -/
def rowOwner : WorkflowRow :=
  { id := "w1", name := "wf", tasks := [], status := "pending",
    results := [], user_id := 5 }

/-- A store holding just `rowOwner`. -/
def dbOwner : List WorkflowRow := [rowOwner]

/-- A worker-side registry with one agent whose metadata carries a url. -/
def mgrC9 : AgentManager := ⟨[("a1", [("url", Val.str "http://u1")])]⟩

/-- Orchestration environment: every HTTP call succeeds and echoes the
task details as the response body. -/
def envEcho : OrchEnv :=
  { mgr := mgrC9, genericEnv := none, http := fun _ td => .success td }

/-- First task payload. -/
def td1 : Obj := [("k", Val.num 1)]

/-- Second task payload. -/
def td2 : Obj := [("k", Val.num 2)]

/-- A two-task workflow task list, both tasks bound to agent `a1`. -/
def tasksTwo : List WTask := [⟨"a1", td1⟩, ⟨"a1", td2⟩]

/-- A pending two-task workflow row. -/
def rowTwo : WorkflowRow :=
  { id := "w9", name := "wf9", tasks := tasksTwo, status := "pending",
    results := [], user_id := 7 }

/-- A store holding just `rowTwo`. -/
def dbTwo : List WorkflowRow := [rowTwo]

end Examples

section Proofs

open AgentFramework Orchestration Examples

theorem pyDictGet_set_self {α : Type} (l : List (String × α)) (k : String) (v : α) :
    pyDictGet (pyDictSet l k v) k = some v := by
  induction l with
  | nil => simp [pyDictSet, pyDictGet]
  | cons hd tl ih =>
      obtain ⟨k', v'⟩ := hd
      by_cases h : k' = k
      · simp [pyDictSet, pyDictGet, h]
      · simp [pyDictSet, pyDictGet, h, ih]

theorem pyDictGet_set_ne {α : Type} (l : List (String × α)) (k k' : String) (v : α)
    (h : k' ≠ k) : pyDictGet (pyDictSet l k' v) k = pyDictGet l k := by
  induction l with
  | nil => simp [pyDictSet, pyDictGet, h]
  | cons hd tl ih =>
      obtain ⟨k'', v''⟩ := hd
      by_cases h2 : k'' = k'
      · subst h2
        simp [pyDictSet, pyDictGet, h, Ne.symm h]
      · by_cases h3 : k'' = k <;> simp [pyDictSet, pyDictGet, h2, h3, Ne.symm h, ih]

theorem pyDictGet_eq_none_iff {α : Type} (l : List (String × α)) (k : String) :
    pyDictGet l k = none ↔ k ∉ l.map Prod.fst := by
  induction l with
  | nil => simp [pyDictGet]
  | cons hd tl ih =>
      obtain ⟨k', v'⟩ := hd
      by_cases h : k' = k
      · subst h
        simp [pyDictGet]
      · simp [pyDictGet, h, ih, Ne.symm h]

theorem pyDictSet_eq_append {α : Type} (l : List (String × α)) (k : String) (v : α)
    (h : k ∉ l.map Prod.fst) : pyDictSet l k v = l ++ [(k, v)] := by
  induction l with
  | nil => simp [pyDictSet]
  | cons hd tl ih =>
      obtain ⟨k', v'⟩ := hd
      simp only [List.map_cons, List.mem_cons] at h
      push_neg at h
      simp [pyDictSet, Ne.symm h.1, ih h.2]

theorem head?_isSome_iff {α : Type} (l : List α) : l.head?.isSome = true ↔ l ≠ [] := by
  cases l <;> simp

theorem filter_ne_nil_iff {α : Type} (p : α → Bool) (l : List α) :
    l.filter p ≠ [] ↔ ∃ a ∈ l, p a = true := by
  induction l with
  | nil => simp
  | cons a l ih => by_cases h : p a <;> simp [List.filter_cons, h, ih]

theorem get_workflow_status_isSome (db : List WorkflowRow) (wid : String) (uid : Int) :
    (get_workflow_status db wid uid).isSome =
      (getWorkflowFromDb db wid (some uid)).isSome := by
  unfold get_workflow_status
  cases getWorkflowFromDb db wid (some uid) <;> rfl

/-- C8 claim theorem: owner-scoped status lookup. A non-zero requester sees
the workflow exactly when it exists with that owner; requester id 0 is
Python-falsy, so the owner filter is skipped and any existing id matches. -/
theorem C8_owner_scoped_lookup_amended (db : List WorkflowRow) (wid : String) (uid : Int) :
    (uid ≠ 0 →
      ((get_workflow_status db wid uid).isSome = true ↔
        ∃ w ∈ db, w.id = wid ∧ w.user_id = uid))
    ∧ ((get_workflow_status db wid 0).isSome = true ↔ ∃ w ∈ db, w.id = wid) := by
  have base : ∀ u : Int, (get_workflow_status db wid u).isSome = true ↔
      ∃ w ∈ db, rowMatches wid (some u) w = true := by
    intro u
    rw [get_workflow_status_isSome]
    unfold getWorkflowFromDb
    rw [head?_isSome_iff]
    exact filter_ne_nil_iff _ _
  constructor
  · intro hu
    rw [base uid]
    constructor
    · rintro ⟨w, hw, hm⟩
      simp only [rowMatches, Bool.and_eq_true, Bool.or_eq_true, beq_iff_eq] at hm
      exact ⟨w, hw, hm.1, hm.2.resolve_left hu⟩
    · rintro ⟨w, hw, h1, h2⟩
      exact ⟨w, hw, by simp [rowMatches, h1, h2]⟩
  · rw [base 0]
    constructor
    · rintro ⟨w, hw, hm⟩
      simp only [rowMatches, Bool.and_eq_true, Bool.or_eq_true, beq_iff_eq] at hm
      exact ⟨w, hw, hm.1⟩
    · rintro ⟨w, hw, h1⟩
      exact ⟨w, hw, by simp [rowMatches, h1]⟩

/-- C8 witness: a non-zero owner finds their own workflow. -/
theorem C8_witness : (get_workflow_status dbOwner "w1" 5).isSome = true :=
  ((C8_owner_scoped_lookup_amended dbOwner "w1" 5).1 (by decide)).mpr
    ⟨rowOwner, by simp [dbOwner], rfl, rfl⟩

/-- C8 counterexample: the workflow is owned by user 5, yet requester 0
receives the snapshot instead of NotFound — the owner check is skipped for
the Python-falsy owner id 0. -/
theorem C8_counterexample :
    get_workflow_status dbOwner "w1" 0 = some ⟨"w1", "wf", "pending", []⟩
    ∧ rowOwner.user_id = 5 ∧ (5 : Int) ≠ 0 :=
  ⟨rfl, rfl, by decide⟩

/-- C10 claim theorem: `get_agent_url` resolves every registered id — it is
`none` exactly for unregistered ids, and a registered id without a `"url"`
metadata entry resolves to the generic fallback endpoint. -/
theorem C10_get_agent_url_total (mgr : AgentManager) (genericEnv : Option String)
    (aid : String) :
    (get_agent_url mgr genericEnv aid = none ↔ pyDictGet mgr.agents aid = none)
    ∧ (∀ info, pyDictGet mgr.agents aid = some info →
        pyDictGet info "url" = none →
        get_agent_url mgr genericEnv aid =
          some (.str (getenvGenericAgentUrl genericEnv))) := by
  constructor
  · constructor
    · intro hc
      cases h : pyDictGet mgr.agents aid with
      | none => rfl
      | some info =>
          simp only [get_agent_url, h] at hc
          split at hc
          · rename_i ht
            rw [hc] at ht
            simp [pyTruthy] at ht
          · cases hc
    · intro h
      simp [get_agent_url, h]
  · intro info hi hu
    simp [get_agent_url, hi, hu, pyTruthy]

/-- C10 witness: a registered agent without url metadata resolves to the
default generic endpoint; an unregistered id resolves to `none`. -/
theorem C10_witness :
    get_agent_url ⟨[("a", [("name", Val.str "A")])]⟩ none "a" =
      some (Val.str "http://generic-agent:5000")
    ∧ get_agent_url ⟨[("a", [("name", Val.str "A")])]⟩ none "ghost" = none :=
  ⟨(C10_get_agent_url_total ⟨[("a", [("name", Val.str "A")])]⟩ none "a").2
      [("name", Val.str "A")] rfl rfl,
   (C10_get_agent_url_total ⟨[("a", [("name", Val.str "A")])]⟩ none "ghost").1.mpr rfl⟩

theorem execLoop_finished_terminal (env : OrchEnv) :
    ∀ (ts : List WTask) (acc rs : List Obj) (f : String),
      execLoop env ts acc = .finished rs f → f = "completed" ∨ f = "failed" := by
  intro ts
  induction ts with
  | nil =>
      intro acc rs f h
      simp only [execLoop, LoopEnd.finished.injEq] at h
      exact Or.inl h.2.symm
  | cons t rest ih =>
      intro acc rs f h
      simp only [execLoop] at h
      split at h
      · split at h
        · exact ih _ _ _ h
        · exact absurd h (by simp)
        · simp only [LoopEnd.finished.injEq] at h
          exact Or.inr h.2.symm
      · simp only [LoopEnd.finished.injEq] at h
        exact Or.inr h.2.symm

theorem execute_workflow_trace_shape (env : OrchEnv) (db : List WorkflowRow)
    (wid : String) :
    execute_workflow env db wid = [] ∨
    execute_workflow env db wid = [.setStatus wid "running"] ∨
    ∃ rs f, execute_workflow env db wid =
        [.setStatus wid "running", .setResults wid rs, .setStatus wid f]
      ∧ (f = "completed" ∨ f = "failed") := by
  cases hg : getWorkflowFromDb db wid none with
  | none =>
      left
      simp [execute_workflow, hg]
  | some w =>
      cases hl : execLoop env w.tasks [] with
      | raised =>
          right; left
          simp [execute_workflow, hg, hl]
      | finished rs f =>
          right; right
          exact ⟨rs, f, by simp [execute_workflow, hg, hl],
            execLoop_finished_terminal env _ _ _ _ hl⟩

theorem statusWrites_cons_status_self (wid s : String) (tr : List StoreWrite) :
    statusWrites wid (.setStatus wid s :: tr) = s :: statusWrites wid tr := by
  simp [statusWrites]

theorem statusWrites_cons_results (wid w : String) (rs : List Obj)
    (tr : List StoreWrite) :
    statusWrites wid (.setResults w rs :: tr) = statusWrites wid tr := by
  simp [statusWrites]

/-- C9 claim theorem (amended): one execution issues its store writes in
exactly one of three shapes — nothing (unknown id), only the `"running"`
status write (uncaught exception), or the `"running"` write followed by a
single results write and the terminal status write.  In particular the
results column is written exactly once, after the whole task loop, never
between tasks. -/
theorem C9_single_results_write_amended (env : OrchEnv) (db : List WorkflowRow)
    (wid : String) :
    execute_workflow env db wid = [] ∨
    execute_workflow env db wid = [.setStatus wid "running"] ∨
    ∃ rs f, execute_workflow env db wid =
        [.setStatus wid "running", .setResults wid rs, .setStatus wid f]
      ∧ (f = "completed" ∨ f = "failed") :=
  execute_workflow_trace_shape env db wid

/-- C9 counterexample: a two-task workflow in which both tasks succeed
issues exactly one results write, after both tasks — a concurrent reader
can never observe the partial one-element results list the claim
promises. -/
theorem C9_counterexample :
    execute_workflow envEcho dbTwo "w9" =
      [.setStatus "w9" "running", .setResults "w9" [td1, td2],
       .setStatus "w9" "completed"]
    ∧ (resultsWrites "w9" (execute_workflow envEcho dbTwo "w9")).length = 1
    ∧ resultsWrites "w9" (execute_workflow envEcho dbTwo "w9") ≠ [[td1], [td1, td2]] := by
  refine ⟨rfl, rfl, ?_⟩
  intro h
  rw [show resultsWrites "w9" (execute_workflow envEcho dbTwo "w9") = [[td1, td2]] from rfl] at h
  have hlen := congrArg List.length h
  simp at hlen

/-- C3 claim theorem (amended): within a single delivery of a pending
workflow, the observed status sequence is monotone in the lifecycle order
pending → running → {completed, failed}. -/
theorem C3_status_monotone_amended (env : OrchEnv) (db : List WorkflowRow)
    (wid : String) (w : WorkflowRow) (hg : getWorkflowFromDb db wid none = some w)
    (hp : w.status = "pending") :
    List.Chain' (fun a b => statusRank a ≤ statusRank b)
      (w.status :: statusWrites wid (execute_workflow env db wid)) := by
  rcases execute_workflow_trace_shape env db wid with h | h | ⟨rs, f, h, hf⟩ <;>
    rw [h, hp]
  · simp [statusWrites]
  · rw [statusWrites_cons_status_self]
    simp [statusWrites, statusRank]
  · rw [statusWrites_cons_status_self, statusWrites_cons_results,
      statusWrites_cons_status_self]
    rcases hf with rfl | rfl <;> simp [statusWrites, statusRank]

/-- C3 witness: the pending two-task workflow's observed statuses during
one delivery are monotone. -/
theorem C3_witness :
    List.Chain' (fun a b => statusRank a ≤ statusRank b)
      (rowTwo.status :: statusWrites "w9" (execute_workflow envEcho dbTwo "w9")) :=
  C3_status_monotone_amended envEcho dbTwo "w9" rowTwo rfl rfl

/-- C3 counterexample: after one delivery completes the workflow, a
duplicate delivery of the same id writes `"running"` again — the observed
sequence regresses from `"completed"` to `"running"`. -/
theorem C3_counterexample :
    (getWorkflowFromDb (applyWrites dbTwo (execute_workflow envEcho dbTwo "w9"))
        "w9" none).map WorkflowRow.status = some "completed"
    ∧ statusWrites "w9"
        (execute_workflow envEcho
          (applyWrites dbTwo (execute_workflow envEcho dbTwo "w9")) "w9") =
        ["running", "completed"]
    ∧ ¬ statusRank "completed" ≤ statusRank "running" :=
  ⟨rfl, rfl, by decide⟩

/-- C5 claim theorem: `Team.execute` always returns a structured
`TeamResult` — the strategy dispatch either returns a result, which is
passed on with `agents_executed` set, or raises, in which case the caller
receives an error result carrying the exception message. -/
theorem C5_no_exception_escapes (env : Env) (cfg : TeamConfiguration) (task : Obj) :
    (∃ r, teamDispatch env cfg task = .ok r ∧
        Team.execute env cfg task = { r with agents_executed := r.agent_results.length })
    ∨ (∃ e, teamDispatch env cfg task = .error e ∧
        Team.execute env cfg task =
          { team_id := cfg.team_id, status := "error", outputs := [],
            error := some e, agents_executed := 0 }) := by
  unfold Team.execute
  cases h : teamDispatch env cfg task with
  | ok r => exact Or.inl ⟨r, rfl, rfl⟩
  | error e => exact Or.inr ⟨e, rfl, rfl⟩

/-- C6 claim theorem (amended): with an empty member list, only
LEADER_FOLLOWER fails fast (its `max()` call raises on the empty
sequence); every other strategy returns a success result with zero members
executed.  The strategy enum is closed, so no unrecognized strategy
exists. -/
theorem C6_empty_members_amended (env : Env) (cfg : TeamConfiguration) (task : Obj)
    (hm : cfg.members = []) :
    (cfg.strategy = .leader_follower →
      (Team.execute env cfg task).status = "error"
      ∧ (Team.execute env cfg task).agents_executed = 0
      ∧ (Team.execute env cfg task).error = some "max() arg is an empty sequence")
    ∧ (cfg.strategy ≠ .leader_follower →
      (Team.execute env cfg task).status = "success"
      ∧ (Team.execute env cfg task).agents_executed = 0) := by
  obtain ⟨tid, name, desc, members, strat, sc⟩ := cfg
  replace hm : members = [] := hm
  subst hm
  cases strat
  · exact ⟨(fun hs => nomatch hs), fun _ => ⟨rfl, rfl⟩⟩
  · exact ⟨(fun hs => nomatch hs), fun _ => ⟨rfl, rfl⟩⟩
  · exact ⟨(fun hs => nomatch hs), fun _ => ⟨rfl, rfl⟩⟩
  · exact ⟨fun _ => ⟨rfl, rfl, rfl⟩, fun hns => absurd rfl hns⟩
  · exact ⟨(fun hs => nomatch hs), fun _ => ⟨rfl, rfl⟩⟩

/-- C6 witness: an empty SEQUENTIAL team succeeds, an empty
LEADER_FOLLOWER team errors. -/
theorem C6_witness :
    (Team.execute envAllRaise cfgEmptySeq []).status = "success"
    ∧ (Team.execute envAllRaise cfgEmptyLF []).status = "error" :=
  ⟨((C6_empty_members_amended envAllRaise cfgEmptySeq [] rfl).2 (by decide)).1,
   ((C6_empty_members_amended envAllRaise cfgEmptyLF [] rfl).1 rfl).1⟩

/-- C6 counterexample: an empty member list under SEQUENTIAL yields a
success result, not the misconfiguration error the claim requires. -/
theorem C6_counterexample :
    (Team.execute envAllRaise cfgEmptySeq []).status = "success"
    ∧ (Team.execute envAllRaise cfgEmptySeq []).error = none :=
  ⟨rfl, rfl⟩

/-- C2 counterexample: in the §8.7 scenario (A succeeds with `{"v": 5}`,
required B fails), the error result's `outputs` is empty — it does not
contain A's contribution, which is only recorded in `agent_results`. -/
theorem C2_counterexample :
    (Team.execute (envPipeAB [("v", Val.num 5)] "boom") cfgPipeAB []).status = "error"
    ∧ (Team.execute (envPipeAB [("v", Val.num 5)] "boom") cfgPipeAB []).outputs = []
    ∧ pyDictGet
        (Team.execute (envPipeAB [("v", Val.num 5)] "boom") cfgPipeAB []).agent_results
        "A" = some { status := "success", outputs := [("v", Val.num 5)] } :=
  ⟨rfl, rfl, rfl⟩

/-- C1 counterexample: a single required member under PARALLEL returns an
error result, yet the team result is `"success"` — the parallel handler
checks `required` only in its exception branch. -/
theorem C1_counterexample :
    (Team.execute envAllErr cfgParRequired []).status = "success"
    ∧ memberR.required = true
    ∧ envAllErr "R" [] [] = .ret errResult
    ∧ errResult.status = "error" :=
  ⟨rfl, rfl, rfl, rfl⟩

/-- C7 counterexample: a single optional member under SEQUENTIAL whose
invocation raises is skipped entirely — team status is `"success"` but the
failed member never appears in `agent_results`, contradicting the claim
that every failed member is individually marked. -/
theorem C7_counterexample :
    (Team.execute envAllRaise cfgOptSeq []).status = "success"
    ∧ (Team.execute envAllRaise cfgOptSeq []).agent_results = []
    ∧ memberX.required = false :=
  ⟨rfl, rfl, rfl⟩


theorem insertDesc_perm (m : TeamMember) (l : List TeamMember) :
    (insertDesc m l).Perm (m :: l) := by
  induction l with
  | nil => exact List.Perm.refl _
  | cons x xs ih =>
      by_cases h : m.priority < x.priority
      · simp only [insertDesc, if_pos h]
        exact (ih.cons x).trans (List.Perm.swap m x xs)
      · simp [insertDesc, if_neg h]

theorem sortByPriorityDesc_perm (ms : List TeamMember) :
    (sortByPriorityDesc ms).Perm ms := by
  induction ms with
  | nil => exact List.Perm.refl _
  | cons m rest ih => exact (insertDesc_perm m _).trans (ih.cons m)

theorem insertDesc_pairwise (m : TeamMember) (l : List TeamMember)
    (h : l.Pairwise (fun a b => b.priority ≤ a.priority)) :
    (insertDesc m l).Pairwise (fun a b => b.priority ≤ a.priority) := by
  induction l with
  | nil => simp [insertDesc]
  | cons x xs ih =>
      rw [List.pairwise_cons] at h
      obtain ⟨hx, hxs⟩ := h
      by_cases hc : m.priority < x.priority
      · simp only [insertDesc, if_pos hc]
        rw [List.pairwise_cons]
        refine ⟨?_, ih hxs⟩
        intro b hb
        rcases List.mem_cons.mp ((insertDesc_perm m xs).mem_iff.mp hb) with rfl | hbxs
        · exact le_of_lt hc
        · exact hx b hbxs
      · simp only [insertDesc, if_neg hc]
        push_neg at hc
        rw [List.pairwise_cons]
        refine ⟨?_, List.pairwise_cons.mpr ⟨hx, hxs⟩⟩
        intro b hb
        rcases List.mem_cons.mp hb with rfl | hbxs
        · exact hc
        · exact le_trans (hx b hbxs) hc

theorem sortByPriorityDesc_pairwise (ms : List TeamMember) :
    (sortByPriorityDesc ms).Pairwise (fun a b => b.priority ≤ a.priority) := by
  induction ms with
  | nil => simp [sortByPriorityDesc]
  | cons m rest ih => exact insertDesc_pairwise m _ ih

theorem insertDesc_filter (m : TeamMember) (l : List TeamMember) (p : Int) :
    (insertDesc m l).filter (fun x => x.priority == p) =
      (if m.priority == p then m :: l.filter (fun x => x.priority == p)
       else l.filter (fun x => x.priority == p)) := by
  induction l with
  | nil => simp [insertDesc, List.filter_cons]
  | cons x xs ih =>
      by_cases hc : m.priority < x.priority
      · simp only [insertDesc, if_pos hc]
        by_cases hxp : (x.priority == p) = true
        · have hmp : ¬ (m.priority == p) = true := by
            simp only [beq_iff_eq] at hxp ⊢
            omega
          simp [List.filter_cons, hxp, ih, hmp]
        · simp [List.filter_cons, hxp, ih]
      · simp only [insertDesc, if_neg hc]
        by_cases hmp : (m.priority == p) = true <;>
          simp [List.filter_cons, hmp]

theorem sortByPriorityDesc_filter (ms : List TeamMember) (p : Int) :
    (sortByPriorityDesc ms).filter (fun x => x.priority == p) =
      ms.filter (fun x => x.priority == p) := by
  induction ms with
  | nil => rfl
  | cons m rest ih =>
      show (insertDesc m (sortByPriorityDesc rest)).filter _ = _
      rw [insertDesc_filter]
      by_cases hmp : (m.priority == p) = true <;>
        simp [List.filter_cons, hmp, ih]


theorem alwaysFails_of_alwaysRaises {env : Env} {aid : String}
    (h : AlwaysRaises env aid) : AlwaysFails env aid := by
  intro inp sd
  obtain ⟨e, he⟩ := h inp sd
  rw [he]
  exact trivial

theorem seqGo_status_error_of_required_fails (env : Env) (tid : String) (task : Obj) :
    ∀ (l : List TeamMember) (sd : Obj) (ars : List (String × AgentResult)) (outs : Obj),
      (∃ m ∈ l, m.required = true ∧ AlwaysFails env m.agent_id) →
      (seqGo env tid task l sd ars outs).status = "error" := by
  intro l
  induction l with
  | nil =>
      rintro sd ars outs ⟨m, hm, -⟩
      cases hm
  | cons x xs ih =>
      rintro sd ars outs ⟨m, hm, hreq, hfail⟩
      rcases List.mem_cons.mp hm with rfl | hmem
      · cases ho : env m.agent_id task sd with
        | raise e => simp [seqGo, ho, hreq]
        | ret r =>
            have hr : r.status ≠ "success" := by
              have hthis := hfail task sd
              rw [ho] at hthis
              exact hthis
            simp [seqGo, ho, hr, hreq]
      · cases ho : env x.agent_id task sd with
        | raise e =>
            by_cases hx : x.required = true
            · simp [seqGo, ho, hx]
            · simp only [seqGo, ho, if_neg hx]
              exact ih _ _ _ ⟨m, hmem, hreq, hfail⟩
        | ret r =>
            by_cases hs : r.status = "success"
            · simp only [seqGo, ho, if_pos hs]
              exact ih _ _ _ ⟨m, hmem, hreq, hfail⟩
            · by_cases hx : x.required = true
              · simp [seqGo, ho, hs, hx]
              · simp only [seqGo, ho, if_neg hs, if_neg hx]
                exact ih _ _ _ ⟨m, hmem, hreq, hfail⟩

theorem parGo_status_error_of_required_raises (env : Env) (tid : String)
    (task sd : Obj) :
    ∀ (l : List TeamMember) (ars : List (String × AgentResult)) (outs : Obj),
      (∃ m ∈ l, m.required = true ∧ AlwaysRaises env m.agent_id) →
      (parGo env tid task sd l ars outs).status = "error" := by
  intro l
  induction l with
  | nil =>
      rintro ars outs ⟨m, hm, -⟩
      cases hm
  | cons x xs ih =>
      rintro ars outs ⟨m, hm, hreq, hrai⟩
      rcases List.mem_cons.mp hm with rfl | hmem
      · obtain ⟨e, he⟩ := hrai task sd
        simp [parGo, he, hreq]
      · cases ho : env x.agent_id task sd with
        | raise e =>
            by_cases hx : x.required = true
            · simp [parGo, ho, hx]
            · simp only [parGo, ho, if_neg hx]
              exact ih _ _ ⟨m, hmem, hreq, hrai⟩
        | ret r =>
            simp only [parGo, ho]
            exact ih _ _ ⟨m, hmem, hreq, hrai⟩

theorem execConsensus_status (env : Env) (tid : String) (task sd : Obj)
    (members : List TeamMember) :
    (execConsensus env tid task sd members).status =
      (execParallel env tid task sd members).status := rfl

theorem lfFollowers_error_of_raises (env : Env) (task sd : Obj) :
    ∀ (l : List TeamMember) (ars : List (String × AgentResult)),
      (∃ m ∈ l, AlwaysRaises env m.agent_id) →
      ∃ e, lfFollowers env task sd l ars = .error e := by
  intro l
  induction l with
  | nil =>
      rintro ars ⟨m, hm, -⟩
      cases hm
  | cons f fs ih =>
      rintro ars ⟨m, hm, hrai⟩
      rcases List.mem_cons.mp hm with rfl | hmem
      · obtain ⟨e, he⟩ := hrai task sd
        exact ⟨e, by simp [lfFollowers, he]⟩
      · cases ho : env f.agent_id task sd with
        | raise e => exact ⟨e, by simp [lfFollowers, ho]⟩
        | ret r =>
            obtain ⟨e, hrec⟩ := ih (pyDictSet ars f.agent_id r) ⟨m, hmem, hrai⟩
            exact ⟨e, by simp [lfFollowers, ho, hrec]⟩

theorem pyMaxByPriority_isSome {l : List TeamMember} (h : l ≠ []) :
    ∃ leader, pyMaxByPriority l = some leader := by
  cases l with
  | nil => exact absurd rfl h
  | cons m rest => exact ⟨_, rfl⟩

theorem execLeaderFollower_fails_of_required_raises (env : Env) (tid : String)
    (task sd : Obj) (members : List TeamMember)
    (hex : ∃ m ∈ members, m.required = true ∧ AlwaysRaises env m.agent_id) :
    (∃ e, execLeaderFollower env tid task sd members = .error e) ∨
    (∃ r, execLeaderFollower env tid task sd members = .ok r ∧ r.status = "error") := by
  obtain ⟨m, hmem, hreq, hrai⟩ := hex
  have hne : members ≠ [] := by
    rintro rfl
    cases hmem
  obtain ⟨leader, hl⟩ := pyMaxByPriority_isSome hne
  by_cases hlid : m.agent_id = leader.agent_id
  · obtain ⟨e, he⟩ := hrai task sd
    rw [hlid] at he
    left
    exact ⟨e, by simp [execLeaderFollower, hl, he]⟩
  · cases ho : env leader.agent_id task sd with
    | raise e =>
        left
        exact ⟨e, by simp [execLeaderFollower, hl, ho]⟩
    | ret lr =>
        by_cases hs : lr.status = "success"
        · have hmf : m ∈ members.filter (fun x => x.agent_id != leader.agent_id) := by
            rw [List.mem_filter]
            exact ⟨hmem, by simp [hlid]⟩
          obtain ⟨e, hrec⟩ := lfFollowers_error_of_raises env task
            (pyDictSet sd "leader_output" (Val.obj lr.outputs))
            (members.filter (fun x => x.agent_id != leader.agent_id))
            (pyDictSet [] leader.agent_id lr) ⟨m, hmf, hrai⟩
          left
          exact ⟨e, by simp [execLeaderFollower, hl, ho, hs, hrec]⟩
        · right
          exact ⟨{ team_id := tid, status := "error", outputs := [],
                   agent_results := pyDictSet [] leader.agent_id lr,
                   error := some ("Leader " ++ leader.agent_id ++ " failed") },
                 by simp [execLeaderFollower, hl, ho, hs], rfl⟩

theorem pipeGo_fails_of_required_fails (env : Env) (tid : String) (sd : Obj) :
    ∀ (l : List TeamMember) (cur : Obj) (ars : List (String × AgentResult)),
      (∃ m ∈ l, m.required = true ∧ AlwaysFails env m.agent_id) →
      (∃ e, pipeGo env tid sd l cur ars = .error e) ∨
      (∃ r, pipeGo env tid sd l cur ars = .ok r ∧ r.status = "error"
        ∧ r.outputs = []) := by
  intro l
  induction l with
  | nil =>
      rintro cur ars ⟨m, hm, -⟩
      cases hm
  | cons x xs ih =>
      rintro cur ars ⟨m, hm, hreq, hfail⟩
      rcases List.mem_cons.mp hm with rfl | hmem
      · cases ho : env m.agent_id cur sd with
        | raise e =>
            left
            exact ⟨e, by simp [pipeGo, ho]⟩
        | ret r =>
            have hr : r.status ≠ "success" := by
              have hthis := hfail cur sd
              rw [ho] at hthis
              exact hthis
            right
            exact ⟨{ team_id := tid, status := "error", outputs := [],
                     agent_results := pyDictSet ars m.agent_id r,
                     error := some ("Pipeline broken at " ++ m.agent_id) },
                   by simp [pipeGo, ho, hr, hreq], rfl, rfl⟩
      · cases ho : env x.agent_id cur sd with
        | raise e =>
            left
            exact ⟨e, by simp [pipeGo, ho]⟩
        | ret r =>
            by_cases hs : r.status = "success"
            · rcases ih r.outputs (pyDictSet ars x.agent_id r) ⟨m, hmem, hreq, hfail⟩
                with ⟨e, h⟩ | ⟨rr, h, hst, houts⟩
              · left
                exact ⟨e, by simp [pipeGo, ho, hs, h]⟩
              · right
                exact ⟨rr, by simp [pipeGo, ho, hs, h], hst, houts⟩
            · by_cases hx : x.required = true
              · right
                exact ⟨{ team_id := tid, status := "error", outputs := [],
                         agent_results := pyDictSet ars x.agent_id r,
                         error := some ("Pipeline broken at " ++ x.agent_id) },
                       by simp [pipeGo, ho, hs, hx], rfl, rfl⟩
              · rcases ih cur (pyDictSet ars x.agent_id r) ⟨m, hmem, hreq, hfail⟩
                  with ⟨e, h⟩ | ⟨rr, h, hst, houts⟩
                · left
                  exact ⟨e, by simp [pipeGo, ho, hs, hx, h]⟩
                · right
                  exact ⟨rr, by simp [pipeGo, ho, hs, hx, h], hst, houts⟩

/-- C1 claim theorem (amended): a required member that raises forces team
status `"error"` under every strategy; a required member that fails (raise
or error result) forces `"error"` under SEQUENTIAL and PIPELINE.  (Under
PARALLEL/CONSENSUS an error *result* from a required member is not checked,
and LEADER_FOLLOWER ignores follower result statuses — see the
counterexample.) -/
theorem C1_required_failure_forces_error_amended (env : Env)
    (cfg : TeamConfiguration) (task : Obj) :
    ((∃ m ∈ cfg.members, m.required = true ∧ AlwaysRaises env m.agent_id) →
      (Team.execute env cfg task).status = "error")
    ∧ ((cfg.strategy = .sequential ∨ cfg.strategy = .pipeline) →
      (∃ m ∈ cfg.members, m.required = true ∧ AlwaysFails env m.agent_id) →
      (Team.execute env cfg task).status = "error") := by
  obtain ⟨tid, name, desc, members, strat, sc⟩ := cfg
  constructor
  · rintro ⟨m, hm, hreq, hrai⟩
    have hsorted : ∃ m' ∈ sortByPriorityDesc members,
        m'.required = true ∧ AlwaysFails env m'.agent_id :=
      ⟨m, (sortByPriorityDesc_perm members).mem_iff.mpr hm, hreq,
        alwaysFails_of_alwaysRaises hrai⟩
    cases strat
    · have h := seqGo_status_error_of_required_fails env tid task
        (sortByPriorityDesc members) sc [] [] hsorted
      simpa [Team.execute, teamDispatch, execSequential] using h
    · have h := parGo_status_error_of_required_raises env tid task sc members [] []
        ⟨m, hm, hreq, hrai⟩
      simpa [Team.execute, teamDispatch, execParallel] using h
    · have h := parGo_status_error_of_required_raises env tid task sc members [] []
        ⟨m, hm, hreq, hrai⟩
      simpa [Team.execute, teamDispatch, execConsensus, execParallel] using h
    · rcases execLeaderFollower_fails_of_required_raises env tid task sc members
        ⟨m, hm, hreq, hrai⟩ with ⟨e, h⟩ | ⟨r, h, hst⟩
      · simp [Team.execute, teamDispatch, h]
      · simp [Team.execute, teamDispatch, h, hst]
    · rcases pipeGo_fails_of_required_fails env tid sc
        (sortByPriorityDesc members) task [] hsorted with ⟨e, h⟩ | ⟨r, h, hst, -⟩
      · simp [Team.execute, teamDispatch, execPipeline, h]
      · simp [Team.execute, teamDispatch, execPipeline, h, hst]
  · rintro hstrat ⟨m, hm, hreq, hfail⟩
    have hsorted : ∃ m' ∈ sortByPriorityDesc members,
        m'.required = true ∧ AlwaysFails env m'.agent_id :=
      ⟨m, (sortByPriorityDesc_perm members).mem_iff.mpr hm, hreq, hfail⟩
    rcases hstrat with hs | hs
    · replace hs : strat = TeamStrategy.sequential := hs
      subst hs
      have h := seqGo_status_error_of_required_fails env tid task
        (sortByPriorityDesc members) sc [] [] hsorted
      simpa [Team.execute, teamDispatch, execSequential] using h
    · replace hs : strat = TeamStrategy.pipeline := hs
      subst hs
      rcases pipeGo_fails_of_required_fails env tid sc
        (sortByPriorityDesc members) task [] hsorted with ⟨e, h⟩ | ⟨r, h, hst, -⟩
      · simp [Team.execute, teamDispatch, execPipeline, h]
      · simp [Team.execute, teamDispatch, execPipeline, h, hst]

/-- C1 witness: a raising required member under PARALLEL and an
error-result required member under SEQUENTIAL both force status
`"error"`. -/
theorem C1_witness :
    (Team.execute envAllRaise cfgParRequired []).status = "error"
    ∧ (Team.execute envAllErr cfgSeqRequired []).status = "error" :=
  ⟨(C1_required_failure_forces_error_amended envAllRaise cfgParRequired []).1
      ⟨memberR, List.mem_singleton.mpr rfl, rfl, fun _ _ => ⟨"boom", rfl⟩⟩,
   (C1_required_failure_forces_error_amended envAllErr cfgSeqRequired []).2
      (Or.inl rfl)
      ⟨memberR, List.mem_singleton.mpr rfl, rfl,
        fun _ _ => (by decide : ("error" : String) ≠ "success")⟩⟩


theorem seqGo_status_success_of_all_optional (env : Env) (tid : String) (task : Obj) :
    ∀ (l : List TeamMember) (sd : Obj) (ars : List (String × AgentResult)) (outs : Obj),
      (∀ m ∈ l, m.required = false) →
      (seqGo env tid task l sd ars outs).status = "success" := by
  intro l
  induction l with
  | nil => intro sd ars outs _; rfl
  | cons x xs ih =>
      intro sd ars outs hopt
      have hx : x.required = false := hopt x (List.mem_cons_self x xs)
      have hxs : ∀ m ∈ xs, m.required = false :=
        fun m hm => hopt m (List.mem_cons_of_mem x hm)
      cases ho : env x.agent_id task sd with
      | raise e =>
          simp only [seqGo, ho, hx, Bool.false_eq_true, if_false]
          exact ih _ _ _ hxs
      | ret r =>
          by_cases hs : r.status = "success"
          · simp only [seqGo, ho, if_pos hs]
            exact ih _ _ _ hxs
          · simp only [seqGo, ho, if_neg hs, hx, Bool.false_eq_true, if_false]
            exact ih _ _ _ hxs

theorem seqGo_lookup_of_always_err (env : Env) (tid : String) (task : Obj)
    (k : String) (hk : AlwaysErrResult env k) :
    ∀ (l : List TeamMember) (sd : Obj) (ars : List (String × AgentResult)) (outs : Obj),
      (∀ m ∈ l, m.required = false) →
      (∃ r, pyDictGet ars k = some r ∧ r.status ≠ "success") →
      ∃ r, pyDictGet (seqGo env tid task l sd ars outs).agent_results k = some r
        ∧ r.status ≠ "success" := by
  intro l
  induction l with
  | nil =>
      intro sd ars outs _ hin
      simpa [seqGo] using hin
  | cons x xs ih =>
      intro sd ars outs hopt hin
      have hx : x.required = false := hopt x (List.mem_cons_self x xs)
      have hxs : ∀ m ∈ xs, m.required = false :=
        fun m hm => hopt m (List.mem_cons_of_mem x hm)
      by_cases hid : x.agent_id = k
      · obtain ⟨r, hr, hrs⟩ := hk task sd
        rw [← hid] at hr
        have hnew : ∃ r', pyDictGet (pyDictSet ars x.agent_id r) k = some r'
            ∧ r'.status ≠ "success" := by
          subst hid
          exact ⟨r, pyDictGet_set_self ars x.agent_id r, hrs⟩
        have hrs' : ¬ r.status = "success" := hrs
        simp only [seqGo, hr, if_neg hrs', hx, Bool.false_eq_true, if_false]
        exact ih _ _ _ hxs hnew
      · cases ho : env x.agent_id task sd with
        | raise e =>
            simp only [seqGo, ho, hx, Bool.false_eq_true, if_false]
            exact ih _ _ _ hxs hin
        | ret r =>
            have hpres : pyDictGet (pyDictSet ars x.agent_id r) k = pyDictGet ars k :=
              pyDictGet_set_ne ars k x.agent_id r hid
            obtain ⟨r0, h0, h0s⟩ := hin
            by_cases hs : r.status = "success"
            · simp only [seqGo, ho, if_pos hs]
              exact ih _ _ _ hxs ⟨r0, by rw [hpres]; exact h0, h0s⟩
            · simp only [seqGo, ho, if_neg hs, hx, Bool.false_eq_true, if_false]
              exact ih _ _ _ hxs ⟨r0, by rw [hpres]; exact h0, h0s⟩

theorem seqGo_records_always_err (env : Env) (tid : String) (task : Obj)
    (k : String) (hk : AlwaysErrResult env k) :
    ∀ (l : List TeamMember) (sd : Obj) (ars : List (String × AgentResult)) (outs : Obj),
      (∀ m ∈ l, m.required = false) →
      (∃ m ∈ l, m.agent_id = k) →
      ∃ r, pyDictGet (seqGo env tid task l sd ars outs).agent_results k = some r
        ∧ r.status ≠ "success" := by
  intro l
  induction l with
  | nil =>
      rintro sd ars outs _ ⟨m, hm, -⟩
      cases hm
  | cons x xs ih =>
      rintro sd ars outs hopt ⟨m, hm, hmk⟩
      have hx : x.required = false := hopt x (List.mem_cons_self x xs)
      have hxs : ∀ m' ∈ xs, m'.required = false :=
        fun m' hm' => hopt m' (List.mem_cons_of_mem x hm')
      by_cases hid : x.agent_id = k
      · obtain ⟨r, hr, hrs⟩ := hk task sd
        rw [← hid] at hr
        have hnew : ∃ r', pyDictGet (pyDictSet ars x.agent_id r) k = some r'
            ∧ r'.status ≠ "success" := by
          subst hid
          exact ⟨r, pyDictGet_set_self ars x.agent_id r, hrs⟩
        have hrs' : ¬ r.status = "success" := hrs
        simp only [seqGo, hr, if_neg hrs', hx, Bool.false_eq_true, if_false]
        exact seqGo_lookup_of_always_err env tid task k hk xs _ _ _ hxs hnew
      · have hmem : m ∈ xs := by
          rcases List.mem_cons.mp hm with rfl | hmem
          · exact absurd hmk hid
          · exact hmem
        cases ho : env x.agent_id task sd with
        | raise e =>
            simp only [seqGo, ho, hx, Bool.false_eq_true, if_false]
            exact ih _ _ _ hxs ⟨m, hmem, hmk⟩
        | ret r =>
            by_cases hs : r.status = "success"
            · simp only [seqGo, ho, if_pos hs]
              exact ih _ _ _ hxs ⟨m, hmem, hmk⟩
            · simp only [seqGo, ho, if_neg hs, hx, Bool.false_eq_true, if_false]
              exact ih _ _ _ hxs ⟨m, hmem, hmk⟩

theorem seqGo_no_record_of_always_raises (env : Env) (tid : String) (task : Obj)
    (k : String) (hk : AlwaysRaises env k) :
    ∀ (l : List TeamMember) (sd : Obj) (ars : List (String × AgentResult)) (outs : Obj),
      (∀ m ∈ l, m.required = false) →
      pyDictGet (seqGo env tid task l sd ars outs).agent_results k =
        pyDictGet ars k := by
  intro l
  induction l with
  | nil => intro sd ars outs _; rfl
  | cons x xs ih =>
      intro sd ars outs hopt
      have hx : x.required = false := hopt x (List.mem_cons_self x xs)
      have hxs : ∀ m ∈ xs, m.required = false :=
        fun m hm => hopt m (List.mem_cons_of_mem x hm)
      by_cases hid : x.agent_id = k
      · obtain ⟨e, he⟩ := hk task sd
        rw [← hid] at he
        simp only [seqGo, he, hx, Bool.false_eq_true, if_false]
        exact ih _ _ _ hxs
      · cases ho : env x.agent_id task sd with
        | raise e =>
            simp only [seqGo, ho, hx, Bool.false_eq_true, if_false]
            exact ih _ _ _ hxs
        | ret r =>
            have hpres : pyDictGet (pyDictSet ars x.agent_id r) k = pyDictGet ars k :=
              pyDictGet_set_ne ars k x.agent_id r hid
            by_cases hs : r.status = "success"
            · simp only [seqGo, ho, if_pos hs]
              rw [ih _ _ _ hxs, hpres]
            · simp only [seqGo, ho, if_neg hs, hx, Bool.false_eq_true, if_false]
              rw [ih _ _ _ hxs, hpres]

/-- C7 claim theorem (amended): in a SEQUENTIAL team whose members are all
optional, any subset of failures still yields status `"success"`; a member
whose invocations return error results appears in `agent_results` marked
non-success, but a member whose invocations raise is skipped and leaves no
entry at all. -/
theorem C7_optional_failures_amended (env : Env) (cfg : TeamConfiguration)
    (task : Obj) (hseq : cfg.strategy = .sequential)
    (hopt : ∀ m ∈ cfg.members, m.required = false) :
    (Team.execute env cfg task).status = "success"
    ∧ (∀ m ∈ cfg.members, AlwaysErrResult env m.agent_id →
        ∃ r, pyDictGet (Team.execute env cfg task).agent_results m.agent_id = some r
          ∧ r.status ≠ "success")
    ∧ (∀ m ∈ cfg.members, AlwaysRaises env m.agent_id →
        pyDictGet (Team.execute env cfg task).agent_results m.agent_id = none) := by
  obtain ⟨tid, name, desc, members, strat, sc⟩ := cfg
  replace hseq : strat = TeamStrategy.sequential := hseq
  subst hseq
  replace hopt : ∀ m ∈ members, m.required = false := hopt
  have hopt' : ∀ m ∈ sortByPriorityDesc members, m.required = false :=
    fun m hm => hopt m ((sortByPriorityDesc_perm members).mem_iff.mp hm)
  refine ⟨?_, ?_, ?_⟩
  · have h := seqGo_status_success_of_all_optional env tid task
      (sortByPriorityDesc members) sc [] [] hopt'
    simpa [Team.execute, teamDispatch, execSequential] using h
  · intro m hm hk
    have h := seqGo_records_always_err env tid task m.agent_id hk
      (sortByPriorityDesc members) sc [] [] hopt'
      ⟨m, (sortByPriorityDesc_perm members).mem_iff.mpr hm, rfl⟩
    simpa [Team.execute, teamDispatch, execSequential] using h
  · intro m hm hk
    have h := seqGo_no_record_of_always_raises env tid task m.agent_id hk
      (sortByPriorityDesc members) sc [] [] hopt'
    simpa [Team.execute, teamDispatch, execSequential, pyDictGet] using h

/-- C7 witness: one optional member that always returns an error result —
team status is `"success"` and the member is recorded as non-success. -/
theorem C7_witness :
    (Team.execute envAllErr cfgOptSeq []).status = "success"
    ∧ ∃ r, pyDictGet (Team.execute envAllErr cfgOptSeq []).agent_results "X" = some r
        ∧ r.status ≠ "success" := by
  have h := C7_optional_failures_amended envAllErr cfgOptSeq [] rfl
    (fun m hm => by
      replace hm : m ∈ [memberX] := hm
      rw [List.mem_singleton] at hm
      subst hm
      rfl)
  exact ⟨h.1, h.2.1 memberX (List.mem_singleton.mpr rfl)
    (fun _ _ => ⟨errResult, rfl, (by decide : ("error" : String) ≠ "success")⟩)⟩


theorem seqGo_keys_sublist (env : Env) (tid : String) (task : Obj) :
    ∀ (l : List TeamMember) (sd : Obj) (ars : List (String × AgentResult)) (outs : Obj),
      (ars.map Prod.fst ++ l.map TeamMember.agent_id).Nodup →
      ∃ ks, ks.Sublist (l.map TeamMember.agent_id) ∧
        (seqGo env tid task l sd ars outs).agent_results.map Prod.fst =
          ars.map Prod.fst ++ ks := by
  intro l
  induction l with
  | nil =>
      intro sd ars outs _
      exact ⟨[], List.Sublist.refl _, by simp [seqGo]⟩
  | cons x xs ih =>
      intro sd ars outs hnd
      have hfresh : x.agent_id ∉ ars.map Prod.fst := by
        have hd := List.disjoint_of_nodup_append hnd
        intro hmem
        exact hd hmem (by simp)
      have hset : ∀ r : AgentResult, (pyDictSet ars x.agent_id r).map Prod.fst
          = ars.map Prod.fst ++ [x.agent_id] := fun r => by
        rw [pyDictSet_eq_append ars x.agent_id r hfresh, List.map_append]
        rfl
      have hnd2 : ∀ r : AgentResult, ((pyDictSet ars x.agent_id r).map Prod.fst
          ++ xs.map TeamMember.agent_id).Nodup := fun r => by
        rw [hset r, List.append_assoc]
        exact hnd
      have hnd' : (ars.map Prod.fst ++ xs.map TeamMember.agent_id).Nodup := by
        have hsub : (ars.map Prod.fst ++ xs.map TeamMember.agent_id).Sublist
            (ars.map Prod.fst ++ (x :: xs).map TeamMember.agent_id) := by
          simp only [List.map_cons]
          exact List.Sublist.append_left (List.sublist_cons_self _ _) _
        exact hnd.sublist hsub
      cases ho : env x.agent_id task sd with
      | raise e =>
          by_cases hx : x.required = true
          · refine ⟨[], List.nil_sublist _, ?_⟩
            simp [seqGo, ho, hx]
          · obtain ⟨ks, hks, heq⟩ := ih sd ars outs hnd'
            refine ⟨ks, ?_, ?_⟩
            · simp only [List.map_cons]
              exact hks.cons _
            · simp only [seqGo, ho, if_neg hx]
              exact heq
      | ret r =>
          by_cases hs : r.status = "success"
          · obtain ⟨ks, hks, heq⟩ := ih
              (pyDictSet sd (x.agent_id ++ "_output") (Val.obj r.outputs))
              (pyDictSet ars x.agent_id r)
              (pyDictSet outs x.agent_id (Val.obj r.outputs)) (hnd2 r)
            refine ⟨x.agent_id :: ks, ?_, ?_⟩
            · simp only [List.map_cons]
              exact hks.cons₂ _
            · simp only [seqGo, ho, if_pos hs]
              rw [heq, hset r, List.append_assoc]
              rfl
          · by_cases hx : x.required = true
            · refine ⟨[x.agent_id], ?_, ?_⟩
              · simp only [List.map_cons]
                exact (List.nil_sublist _).cons₂ _
              · simp only [seqGo, ho, if_neg hs, if_pos hx]
                exact hset r
            · obtain ⟨ks, hks, heq⟩ := ih sd (pyDictSet ars x.agent_id r) outs (hnd2 r)
              refine ⟨x.agent_id :: ks, ?_, ?_⟩
              · simp only [List.map_cons]
                exact hks.cons₂ _
              · simp only [seqGo, ho, if_neg hs, if_neg hx]
                rw [heq, hset r, List.append_assoc]
                rfl

theorem pipeGo_keys_sublist (env : Env) (tid : String) (sd : Obj) :
    ∀ (l : List TeamMember) (cur : Obj) (ars : List (String × AgentResult)),
      (ars.map Prod.fst ++ l.map TeamMember.agent_id).Nodup →
      (∃ e, pipeGo env tid sd l cur ars = .error e) ∨
      (∃ r ks, pipeGo env tid sd l cur ars = .ok r
        ∧ ks.Sublist (l.map TeamMember.agent_id)
        ∧ r.agent_results.map Prod.fst = ars.map Prod.fst ++ ks) := by
  intro l
  induction l with
  | nil =>
      intro cur ars _
      right
      exact ⟨_, [], rfl, List.Sublist.refl _, by simp⟩
  | cons x xs ih =>
      intro cur ars hnd
      have hfresh : x.agent_id ∉ ars.map Prod.fst := by
        have hd := List.disjoint_of_nodup_append hnd
        intro hmem
        exact hd hmem (by simp)
      have hset : ∀ r : AgentResult, (pyDictSet ars x.agent_id r).map Prod.fst
          = ars.map Prod.fst ++ [x.agent_id] := fun r => by
        rw [pyDictSet_eq_append ars x.agent_id r hfresh, List.map_append]
        rfl
      have hnd2 : ∀ r : AgentResult, ((pyDictSet ars x.agent_id r).map Prod.fst
          ++ xs.map TeamMember.agent_id).Nodup := fun r => by
        rw [hset r, List.append_assoc]
        exact hnd
      cases ho : env x.agent_id cur sd with
      | raise e =>
          left
          exact ⟨e, by simp [pipeGo, ho]⟩
      | ret r =>
          by_cases hs : r.status = "success"
          · rcases ih r.outputs (pyDictSet ars x.agent_id r) (hnd2 r)
              with ⟨e, h⟩ | ⟨rr, ks, h, hks, heq⟩
            · left
              exact ⟨e, by simp [pipeGo, ho, hs, h]⟩
            · right
              refine ⟨rr, x.agent_id :: ks, by simp [pipeGo, ho, hs, h], ?_, ?_⟩
              · simp only [List.map_cons]
                exact hks.cons₂ _
              · rw [heq, hset r, List.append_assoc]
                rfl
          · by_cases hx : x.required = true
            · right
              refine ⟨{ team_id := tid, status := "error", outputs := [],
                        agent_results := pyDictSet ars x.agent_id r,
                        error := some ("Pipeline broken at " ++ x.agent_id) },
                      [x.agent_id], by simp [pipeGo, ho, hs, hx], ?_, ?_⟩
              · simp only [List.map_cons]
                exact (List.nil_sublist _).cons₂ _
              · exact hset r
            · rcases ih cur (pyDictSet ars x.agent_id r) (hnd2 r)
                with ⟨e, h⟩ | ⟨rr, ks, h, hks, heq⟩
              · left
                exact ⟨e, by simp [pipeGo, ho, hs, hx, h]⟩
              · right
                refine ⟨rr, x.agent_id :: ks, by simp [pipeGo, ho, hs, hx, h], ?_, ?_⟩
                · simp only [List.map_cons]
                  exact hks.cons₂ _
                · rw [heq, hset r, List.append_assoc]
                  rfl

/-- C4 claim theorem: under SEQUENTIAL and PIPELINE the members are
processed in the order produced by the stable descending-priority sort —
that order is a permutation of the configured members, its priorities are
non-increasing, equal priorities keep their configuration order, and (for
distinct agent ids) the recorded per-worker result keys follow that order
(a prefix of it, or with raise-skipped members omitted). -/
theorem C4_priority_order (env : Env) (cfg : TeamConfiguration) (task : Obj)
    (hstrat : cfg.strategy = .sequential ∨ cfg.strategy = .pipeline) :
    (sortByPriorityDesc cfg.members).Perm cfg.members
    ∧ (sortByPriorityDesc cfg.members).Pairwise (fun a b => b.priority ≤ a.priority)
    ∧ (∀ p : Int, (sortByPriorityDesc cfg.members).filter (fun x => x.priority == p)
        = cfg.members.filter (fun x => x.priority == p))
    ∧ ((cfg.members.map TeamMember.agent_id).Nodup →
        ((Team.execute env cfg task).agent_results.map Prod.fst).Sublist
          ((sortByPriorityDesc cfg.members).map TeamMember.agent_id)) := by
  refine ⟨sortByPriorityDesc_perm _, sortByPriorityDesc_pairwise _,
    fun p => sortByPriorityDesc_filter _ p, ?_⟩
  intro hnd
  obtain ⟨tid, name, desc, members, strat, sc⟩ := cfg
  replace hnd : (members.map TeamMember.agent_id).Nodup := hnd
  have hnd' : (([] : List (String × AgentResult)).map Prod.fst
      ++ (sortByPriorityDesc members).map TeamMember.agent_id).Nodup := by
    simp only [List.map_nil, List.nil_append]
    exact (((sortByPriorityDesc_perm members).map TeamMember.agent_id).nodup_iff).mpr hnd
  rcases hstrat with hs | hs
  · replace hs : strat = TeamStrategy.sequential := hs
    subst hs
    obtain ⟨ks, hks, heq⟩ := seqGo_keys_sublist env tid task
      (sortByPriorityDesc members) sc [] [] hnd'
    have hteam : (Team.execute env ⟨tid, name, desc, members,
        TeamStrategy.sequential, sc⟩ task).agent_results
        = (seqGo env tid task (sortByPriorityDesc members) sc [] []).agent_results := rfl
    rw [hteam, heq]
    simpa using hks
  · replace hs : strat = TeamStrategy.pipeline := hs
    subst hs
    rcases pipeGo_keys_sublist env tid sc (sortByPriorityDesc members) task [] hnd'
      with ⟨e, h⟩ | ⟨rr, ks, h, hks, heq⟩
    · have hteam : (Team.execute env ⟨tid, name, desc, members,
          TeamStrategy.pipeline, sc⟩ task).agent_results = [] := by
        simp [Team.execute, teamDispatch, execPipeline, h]
      rw [hteam]
      simp
    · have hteam : (Team.execute env ⟨tid, name, desc, members,
          TeamStrategy.pipeline, sc⟩ task).agent_results = rr.agent_results := by
        simp [Team.execute, teamDispatch, execPipeline, h]
      rw [hteam, heq]
      simpa using hks

/-- C4 witness: the two-member SEQUENTIAL team records its results in the
descending-priority order, which permutes the configured members. -/
theorem C4_witness :
    ((Team.execute envOk cfgSeqAB []).agent_results.map Prod.fst).Sublist
      ((sortByPriorityDesc cfgSeqAB.members).map TeamMember.agent_id)
    ∧ (sortByPriorityDesc cfgSeqAB.members).Perm cfgSeqAB.members := by
  have h := C4_priority_order envOk cfgSeqAB [] (Or.inl rfl)
  exact ⟨h.2.2.2 (by decide), h.1⟩


theorem pipeGo_break_of_required_errs (env : Env) (tid : String) (sd : Obj) :
    ∀ (l : List TeamMember) (cur : Obj) (ars : List (String × AgentResult)),
      (∀ m ∈ l, NeverRaises env m.agent_id) →
      (∃ m ∈ l, m.required = true ∧ AlwaysFails env m.agent_id) →
      ∃ rr, pipeGo env tid sd l cur ars = .ok rr
        ∧ ∃ aid r, rr.error = some ("Pipeline broken at " ++ aid)
          ∧ pyDictGet rr.agent_results aid = some r ∧ r.status ≠ "success" := by
  intro l
  induction l with
  | nil =>
      rintro cur ars _ ⟨m, hm, -⟩
      cases hm
  | cons x xs ih =>
      rintro cur ars hnr ⟨m, hm, hreq, hfail⟩
      have hnrx : NeverRaises env x.agent_id := hnr x (List.mem_cons_self x xs)
      have hnrxs : ∀ m' ∈ xs, NeverRaises env m'.agent_id :=
        fun m' hm' => hnr m' (List.mem_cons_of_mem x hm')
      obtain ⟨r, hr⟩ := hnrx cur sd
      rcases List.mem_cons.mp hm with rfl | hmem
      · have hrs : r.status ≠ "success" := by
          have hthis := hfail cur sd
          rw [hr] at hthis
          exact hthis
        refine ⟨{ team_id := tid, status := "error", outputs := [],
                  agent_results := pyDictSet ars m.agent_id r,
                  error := some ("Pipeline broken at " ++ m.agent_id) },
                by simp [pipeGo, hr, hrs, hreq], m.agent_id, r, rfl,
                pyDictGet_set_self ars m.agent_id r, hrs⟩
      · by_cases hs : r.status = "success"
        · obtain ⟨rr, h, hrest⟩ := ih r.outputs (pyDictSet ars x.agent_id r)
            hnrxs ⟨m, hmem, hreq, hfail⟩
          exact ⟨rr, by simp [pipeGo, hr, hs, h], hrest⟩
        · by_cases hx : x.required = true
          · refine ⟨{ team_id := tid, status := "error", outputs := [],
                      agent_results := pyDictSet ars x.agent_id r,
                      error := some ("Pipeline broken at " ++ x.agent_id) },
                    by simp [pipeGo, hr, hs, hx], x.agent_id, r, rfl,
                    pyDictGet_set_self ars x.agent_id r, hs⟩
          · obtain ⟨rr, h, hrest⟩ := ih cur (pyDictSet ars x.agent_id r)
              hnrxs ⟨m, hmem, hreq, hfail⟩
            exact ⟨rr, by simp [pipeGo, hr, hs, hx, h], hrest⟩

/-- C2 claim theorem (amended): in every PIPELINE configuration with a
required member whose invocations always fail, `Team.execute` yields
status `"error"` with *empty* outputs.  When no member invocation raises,
the error message names the broken stage and that stage's error result is
recorded (non-success) in `agent_results` — contributions survive only
there, never in `outputs`; when the failure escapes as an exception, the
error result carries no `agent_results` at all. -/
theorem C2_pipeline_required_failure_amended (env : Env)
    (cfg : TeamConfiguration) (task : Obj) (hp : cfg.strategy = .pipeline)
    (hex : ∃ m ∈ cfg.members, m.required = true ∧ AlwaysFails env m.agent_id) :
    ((Team.execute env cfg task).status = "error"
      ∧ (Team.execute env cfg task).outputs = [])
    ∧ ((∀ m ∈ cfg.members, NeverRaises env m.agent_id) →
        ∃ aid r, (Team.execute env cfg task).error =
            some ("Pipeline broken at " ++ aid)
          ∧ pyDictGet (Team.execute env cfg task).agent_results aid = some r
          ∧ r.status ≠ "success")
    ∧ ((∃ e, teamDispatch env cfg task = Except.error e) →
        (Team.execute env cfg task).agent_results = []) := by
  obtain ⟨tid, name, desc, members, strat, sc⟩ := cfg
  replace hp : strat = TeamStrategy.pipeline := hp
  subst hp
  replace hex : ∃ m ∈ members, m.required = true ∧ AlwaysFails env m.agent_id := hex
  have hsorted : ∃ m ∈ sortByPriorityDesc members,
      m.required = true ∧ AlwaysFails env m.agent_id := by
    obtain ⟨m, hm, h1, h2⟩ := hex
    exact ⟨m, (sortByPriorityDesc_perm members).mem_iff.mpr hm, h1, h2⟩
  refine ⟨?_, ?_, ?_⟩
  · rcases pipeGo_fails_of_required_fails env tid sc
      (sortByPriorityDesc members) task [] hsorted
      with ⟨e, h⟩ | ⟨rr, h, hst, houts⟩
    · constructor <;> simp [Team.execute, teamDispatch, execPipeline, h]
    · constructor <;> simp [Team.execute, teamDispatch, execPipeline, h, hst, houts]
  · intro hnr
    have hnr' : ∀ m ∈ sortByPriorityDesc members, NeverRaises env m.agent_id :=
      fun m hm => hnr m ((sortByPriorityDesc_perm members).mem_iff.mp hm)
    obtain ⟨rr, h, aid, r, herr, hget, hrs⟩ := pipeGo_break_of_required_errs
      env tid sc (sortByPriorityDesc members) task [] hnr' hsorted
    refine ⟨aid, r, ?_, ?_, hrs⟩
    · simp [Team.execute, teamDispatch, execPipeline, h, herr]
    · simp [Team.execute, teamDispatch, execPipeline, h, hget]
  · rintro ⟨e, h⟩
    simp [Team.execute, h]

/-- C2 witness: the §8.7 scenario — A (priority 2) succeeds with
`{"v": 5}`, required B (priority 1) returns an error result — gives status
`"error"`, empty outputs, and B recorded non-success as the broken stage. -/
theorem C2_witness :
    (Team.execute (envPipeAB [("v", Val.num 5)] "boom") cfgPipeAB []).status = "error"
    ∧ (Team.execute (envPipeAB [("v", Val.num 5)] "boom") cfgPipeAB []).outputs = []
    ∧ ∃ aid r,
        (Team.execute (envPipeAB [("v", Val.num 5)] "boom") cfgPipeAB []).error =
          some ("Pipeline broken at " ++ aid)
        ∧ pyDictGet (Team.execute (envPipeAB [("v", Val.num 5)] "boom")
            cfgPipeAB []).agent_results aid = some r
        ∧ r.status ≠ "success" := by
  have h := C2_pipeline_required_failure_amended
    (envPipeAB [("v", Val.num 5)] "boom") cfgPipeAB [] rfl
    ⟨memberB, by decide, rfl,
      fun _ _ => (by decide : ("error" : String) ≠ "success")⟩
  refine ⟨h.1.1, h.1.2, h.2.1 ?_⟩
  intro m hm inp sd
  by_cases hA : m.agent_id = "A"
  · exact ⟨{ status := "success", outputs := [("v", Val.num 5)] },
      by simp [envPipeAB, hA]⟩
  · exact ⟨{ status := "error", outputs := [], error := some "boom" },
      by simp [envPipeAB, hA]⟩

end Proofs
